import Mathlib

/-!
# Verification of the reqwest_client HTTP transport bridge

Shallow embedding of `src/crates/reqwest_client/src/reqwest_client.rs`:
the `StreamReader` byte-stream adapter, the dual-mode transport
construction (`impl From<reqwest::Client> for ReqwestClient`), the
background-thread bridge loop, and `ReqwestClient::send` (extension
resolution, dispatch, response translation).

Bytes and error codes are modelled as `Nat`; buffers carry an explicit
list of filled bytes plus a spare-capacity count, mirroring `BytesMut`'s
filled/uninitialized split.
-/

/-- `DEFAULT_CAPACITY` from reqwest_client.rs line 23. -/
def DEFAULT_CAPACITY : Nat := 4096

/-- One scheduled behaviour of the underlying `AsyncRead` source for a
single `poll_read` call.  `ready k` means the source is ready and writes
up to `k + 1` bytes into the slice it is handed (at least one byte while
any remain, reflecting the `AsyncRead` contract that `Ok(0)` is reserved
for end-of-input or an empty slice); `pending` means the source is not
ready; `fail e` means the read completes with the io error `e`. -/
inductive SEvent where
  | pending
  | fail (e : Nat)
  | ready (k : Nat)
deriving DecidableEq, Repr

/-- The underlying asynchronous byte source handed to `StreamReader::new`:
its remaining bytes together with the schedule of its per-poll behaviour. -/
structure Source where
  data : List Nat
  schedule : List SEvent
deriving DecidableEq, Repr

/-- A `BytesMut` buffer: the filled (initialized, length-counted) bytes and
the spare (allocated but uninitialized) capacity behind them. -/
structure Buf where
  filled : List Nat
  spare : Nat
deriving DecidableEq, Repr

/-- `BytesMut::capacity()`: total bytes the buffer can hold without
reallocating (filled part plus spare capacity). -/
def Buf.capacity (b : Buf) : Nat :=
  b.filled.length + b.spare

/-- Result of one `poll_read` style call: `Poll<io::Result<usize>>`. -/
inductive ReadPoll where
  | pending
  | ready (r : Except Nat Nat)
deriving Repr

/-- `poll_read_buf` (reqwest_client.rs lines 156-190): reads from the
source directly into the buffer's uninitialized tail.  Returns the poll
outcome, the source as left after the call, and the buffer with its
filled cursor advanced by exactly the number of bytes the read reported.
The `spare = 0` early return mirrors the `!buf.has_remaining_mut()`
guard (lines 161-163); in every state reachable from `poll_next` the
spare capacity is positive, so the guard never fires there. -/
def pollReadBuf (src : Source) (buf : Buf) : ReadPoll × Source × Buf :=
  if buf.spare = 0 then (.ready (.ok 0), src, buf)
  else
    match src.schedule with
    | [] => (.pending, src, buf)
    | .pending :: rest => (.pending, { src with schedule := rest }, buf)
    | .fail e :: rest => (.ready (.error e), { src with schedule := rest }, buf)
    | .ready k :: rest =>
        let w := src.data.take (min (k + 1) buf.spare)
        (.ready (.ok w.length),
         { data := src.data.drop w.length, schedule := rest },
         { filled := buf.filled ++ w, spare := buf.spare - w.length })

/-- The `StreamReader` adapter state (reqwest_client.rs lines 99-113):
an owned reader (`None` once terminal), the reusable buffer, and the
target chunk capacity. -/
structure StreamReader where
  reader : Option Source
  buf : Buf
  capacity : Nat
deriving DecidableEq, Repr

/-- `StreamReader::new`: owns the reader, starts with `BytesMut::new()`
(capacity zero) and `DEFAULT_CAPACITY`. -/
def StreamReader.new (reader : Source) : StreamReader :=
  { reader := some reader, buf := { filled := [], spare := 0 }, capacity := DEFAULT_CAPACITY }

/-- Lines 129-132: `if this.buf.capacity() == 0 { this.buf.reserve(capacity) }`. -/
def reserveIfEmpty (capacity : Nat) (b : Buf) : Buf :=
  if b.capacity = 0 then { b with spare := capacity } else b

/-- Outcome of one `poll_next` pull of the stream:
`Poll::Pending`, `Ready(None)`, `Ready(Some(Ok(chunk)))` or
`Ready(Some(Err(e)))`. -/
inductive PollNextResult where
  | pending
  | done
  | chunk (bytes : List Nat)
  | failed (e : Nat)
deriving DecidableEq, Repr

/-- `<StreamReader as Stream>::poll_next` (reqwest_client.rs lines
115-152).  The reader is taken out of `self` (`this.reader.take()`,
line 124); it is put back only on the `Ready(Ok(n))` with `n > 0`
branch (line 147).  In particular on the `Pending` branch the taken
reader is dropped with the stack frame, leaving `self.reader = None`. -/
def pollNext (s : StreamReader) : PollNextResult × StreamReader :=
  match s.reader with
  | none => (.done, s)
  | some reader =>
      let buf0 := reserveIfEmpty s.capacity s.buf
      match pollReadBuf reader buf0 with
      | (.pending, _, buf1) =>
          (.pending, { s with reader := none, buf := buf1 })
      | (.ready (.error e), _, buf1) =>
          (.failed e, { s with reader := none, buf := buf1 })
      | (.ready (.ok 0), _, buf1) =>
          (.done, { s with reader := none, buf := buf1 })
      | (.ready (.ok (_ + 1)), reader', buf1) =>
          (.chunk buf1.filled,
           { s with reader := some reader', buf := { filled := [], spare := buf1.spare } })

/-- The trace of outcomes of `fuel` successive pulls of the stream. -/
def pullTrace : Nat → StreamReader → List PollNextResult
  | 0, _ => []
  | fuel + 1, s =>
      let p := pollNext s
      p.1 :: pullTrace fuel p.2

/-- The chunks emitted along a trace of pull outcomes. -/
def chunksOf (trace : List PollNextResult) : List (List Nat) :=
  trace.filterMap fun r =>
    match r with
    | .chunk bytes => some bytes
    | _ => none

-- Basic sanity checks of the embedding on concrete inputs.
example : pollNext (StreamReader.new ⟨[5, 6], [.ready 9]⟩)
    = (.chunk [5, 6], ⟨some ⟨[], []⟩, ⟨[], 4094⟩, 4096⟩) := by rfl

example : pullTrace 3 (StreamReader.new ⟨[7], [.ready 0, .ready 0]⟩)
    = [.chunk [7], .done, .done] := by rfl

example : pullTrace 2 (StreamReader.new ⟨[7], [.fail 3, .ready 0]⟩)
    = [.failed 3, .done] := by rfl

/-! ## Helper lemmas about the adapter -/

theorem reserveIfEmpty_filled (capacity : Nat) (b : Buf) :
    (reserveIfEmpty capacity b).filled = b.filled := by
  unfold reserveIfEmpty
  split <;> rfl

theorem take_filled_length (d : List Nat) (t : Nat) :
    d.take (d.take t).length = d.take t := by
  rw [List.length_take]
  rcases Nat.le_total t d.length with h | h
  · rw [Nat.min_eq_left h]
  · rw [Nat.min_eq_right h, List.take_of_length_le h, List.take_of_length_le (Nat.le_refl _)]

/-- Characterization of a completed read: the filled cursor advances by
exactly the reported count and the bytes appended are exactly the next
bytes of the source (never stale or uninitialized content). -/
theorem pollReadBuf_ok_spec (src : Source) (buf : Buf) (n : Nat) (src' : Source) (buf' : Buf)
    (h : pollReadBuf src buf = (.ready (.ok n), src', buf')) :
    buf'.filled = buf.filled ++ src.data.take n
    ∧ buf'.filled.length = buf.filled.length + n
    ∧ src'.data = src.data.drop n
    ∧ buf'.spare = buf.spare - n := by
  unfold pollReadBuf at h
  split at h
  · simp only [Prod.mk.injEq, ReadPoll.ready.injEq, Except.ok.injEq] at h
    obtain ⟨hn, hsrc, hbuf⟩ := h
    subst hn hsrc hbuf
    simp
  · split at h
    · simp at h
    · simp at h
    · simp at h
    · simp only [Prod.mk.injEq, ReadPoll.ready.injEq, Except.ok.injEq] at h
      obtain ⟨hn, hsrc, hbuf⟩ := h
      subst hn
      subst hsrc
      subst hbuf
      refine ⟨?_, ?_, ?_, ?_⟩
      · simp [take_filled_length]
      · simp [List.length_append]
      · simp [take_filled_length]
      · rfl

/-- A pull on a terminal adapter returns `None` and leaves the state
untouched: the reader is gone and is never read from again. -/
theorem pollNext_terminal (s : StreamReader) (h : s.reader = none) :
    pollNext s = (.done, s) := by
  simp [pollNext, h]

/-- Every pull whose outcome is not a chunk leaves the adapter terminal. -/
theorem pollNext_reader_none_of_not_chunk (s : StreamReader) :
    ∀ (out : PollNextResult) (s' : StreamReader), pollNext s = (out, s') →
      (∃ bytes, out = .chunk bytes) ∨ s'.reader = none := by
  rcases hr : s.reader with _ | src
  · intro out s' h
    right
    simp only [pollNext, hr] at h
    obtain ⟨h1, h2⟩ := Prod.mk.injEq .. ▸ h
    rw [← h2]
    exact hr
  · intro out s' h
    rcases hpoll : pollReadBuf src (reserveIfEmpty s.capacity s.buf) with ⟨rp, rsrc, rbuf⟩
    rcases rp with _ | r
    · right
      simp only [pollNext, hr, hpoll] at h
      obtain ⟨h1, h2⟩ := Prod.mk.injEq .. ▸ h
      rw [← h2]
    · rcases r with e | n
      · right
        simp only [pollNext, hr, hpoll] at h
        obtain ⟨h1, h2⟩ := Prod.mk.injEq .. ▸ h
        rw [← h2]
      · rcases n with _ | m
        · right
          simp only [pollNext, hr, hpoll] at h
          obtain ⟨h1, h2⟩ := Prod.mk.injEq .. ▸ h
          rw [← h2]
        · left
          simp only [pollNext, hr, hpoll] at h
          obtain ⟨h1, h2⟩ := Prod.mk.injEq .. ▸ h
          exact ⟨rbuf.filled, h1.symm⟩

/-- Once terminal, every later pull is `None`. -/
theorem pullTrace_terminal (s : StreamReader) (h : s.reader = none) :
    ∀ k, pullTrace k s = List.replicate k .done := by
  intro k
  induction k with
  | zero => rfl
  | succ n ih =>
      simp [pullTrace, pollNext_terminal s h, ih, List.replicate_succ]

theorem chunksOf_replicate_done (k : Nat) :
    chunksOf (List.replicate k .done) = [] := by
  induction k with
  | zero => rfl
  | succ n ih =>
      rw [List.replicate_succ]
      unfold chunksOf at ih ⊢
      rw [List.filterMap_cons]
      exact ih

/-- Each pull keeps the buffer's filled part empty: the chunk branch
splits off the whole filled content, the other branches never commit
bytes that are kept.  This is the invariant every reachable adapter
state satisfies, so the hypotheses of the per-pull theorems below hold
on every actual pull. -/
theorem pollNext_preserves_empty (t : StreamReader) (h : t.buf.filled = []) :
    ((pollNext t).2).buf.filled = [] := by
  rcases hr : t.reader with _ | src
  · simp [pollNext, hr, h]
  · have hb0 : (reserveIfEmpty t.capacity t.buf).filled = [] := by
      rw [reserveIfEmpty_filled, h]
    rcases hpoll : pollReadBuf src (reserveIfEmpty t.capacity t.buf) with ⟨rp, rsrc, rbuf⟩
    rcases rp with _ | r
    · simp only [pollNext, hr, hpoll]
      have : rbuf = reserveIfEmpty t.capacity t.buf := by
        unfold pollReadBuf at hpoll
        split at hpoll <;> [skip; split at hpoll] <;> simp_all
      rw [this]
      exact hb0
    · rcases r with e | n
      · simp only [pollNext, hr, hpoll]
        have : rbuf = reserveIfEmpty t.capacity t.buf := by
          unfold pollReadBuf at hpoll
          split at hpoll <;> [skip; split at hpoll] <;> simp_all
        rw [this]
        exact hb0
      · rcases n with _ | m
        · simp only [pollNext, hr, hpoll]
          have := pollReadBuf_ok_spec src _ 0 rsrc rbuf hpoll
          rw [this.1, hb0]
          rfl
        · simp [pollNext, hr, hpoll]

/-! ## Claims about the ByteStreamAdapter (StreamReader) -/

/-- C2: On every pull, if the underlying read reports that `n` bytes were
written, the buffer's filled cursor advances by exactly `n`, those bytes
are exactly the next `n` bytes of the source (no uninitialized or stale
memory), and when `n > 0` the chunk returned by that pull is exactly that
filled content of length `n`, while the spare allocated capacity stays
outside the chunk.  The final conjunct shows the `filled = []` hypothesis
is an invariant of every pull, so this applies to every reachable pull. -/
theorem read_report_advances_exactly
    (s : StreamReader) (src src' : Source) (n : Nat) (buf1 : Buf)
    (hr : s.reader = some src) (hf : s.buf.filled = [])
    (hp : pollReadBuf src (reserveIfEmpty s.capacity s.buf) = (.ready (.ok n), src', buf1)) :
    buf1.filled.length = n
    ∧ buf1.filled = src.data.take n
    ∧ (∀ m : Nat, n = m + 1 →
        pollNext s = (.chunk buf1.filled,
          { s with reader := some src', buf := { filled := [], spare := buf1.spare } }))
    ∧ (∀ t : StreamReader, t.buf.filled = [] → ((pollNext t).2).buf.filled = []) := by
  have hb0 : (reserveIfEmpty s.capacity s.buf).filled = [] := by
    rw [reserveIfEmpty_filled, hf]
  have hspec := pollReadBuf_ok_spec src _ n src' buf1 hp
  refine ⟨?_, ?_, ?_, pollNext_preserves_empty⟩
  · rw [hspec.2.1, hb0]
    simp
  · rw [hspec.1, hb0]
    rfl
  · intro m hm
    subst hm
    simp [pollNext, hr, hp]

theorem read_report_advances_exactly_witness :
    Buf.filled ⟨[5, 6], 4094⟩ = ([5, 6] : List Nat).take 2
    ∧ pollNext (StreamReader.new ⟨[5, 6], [.ready 9]⟩)
        = (.chunk [5, 6], ⟨some ⟨[], []⟩, ⟨[], 4094⟩, 4096⟩) := by
  have h := read_report_advances_exactly (StreamReader.new ⟨[5, 6], [.ready 9]⟩)
    ⟨[5, 6], [.ready 9]⟩ ⟨[], []⟩ 2 ⟨[5, 6], 4094⟩ rfl rfl rfl
  exact ⟨h.2.1, h.2.2.1 1 rfl⟩

/-- C3: once the adapter is terminal (reader dropped after end-of-input
or an error), every later pull returns `None` with the state untouched,
so the reader is never read from again and an error is surfaced on
exactly the pull that observed it and never re-surfaced. -/
theorem terminal_state_absorbing :
    (∀ s : StreamReader, s.reader = none → pollNext s = (.done, s))
    ∧ (∀ (s s' : StreamReader) (e : Nat), pollNext s = (.failed e, s') → s'.reader = none)
    ∧ (∀ (s s' : StreamReader), pollNext s = (.done, s') → s'.reader = none)
    ∧ (∀ (s : StreamReader) (k : Nat), s.reader = none →
        pullTrace k s = List.replicate k .done) := by
  refine ⟨pollNext_terminal, ?_, ?_, fun s k h => pullTrace_terminal s h k⟩
  · intro s s' e h
    rcases pollNext_reader_none_of_not_chunk s _ _ h with ⟨bs, hbs⟩ | hnone
    · simp at hbs
    · exact hnone
  · intro s s' h
    rcases pollNext_reader_none_of_not_chunk s _ _ h with ⟨bs, hbs⟩ | hnone
    · simp at hbs
    · exact hnone

theorem terminal_state_absorbing_witness :
    pullTrace 2 ⟨none, ⟨[], 0⟩, 4096⟩ = List.replicate 2 PollNextResult.done
    ∧ StreamReader.reader ⟨none, ⟨[], 4096⟩, 4096⟩ = none := by
  refine ⟨terminal_state_absorbing.2.2.2 _ 2 rfl, ?_⟩
  exact terminal_state_absorbing.2.1 (StreamReader.new ⟨[1], [.fail 7]⟩) _ 7 rfl

/-- C9: a read that reports zero bytes written makes the pull drop the
reader and return `None`; for a source with no bytes that is ready
immediately, the very first pull returns `None` and no pull ever
produces a chunk. -/
theorem zero_read_terminates :
    (∀ (s : StreamReader) (src src' : Source) (buf1 : Buf),
        s.reader = some src →
        pollReadBuf src (reserveIfEmpty s.capacity s.buf) = (.ready (.ok 0), src', buf1) →
        pollNext s = (.done, { s with reader := none, buf := buf1 }))
    ∧ (∀ (m : Nat) (sched : List SEvent),
        (pollNext (StreamReader.new ⟨[], .ready m :: sched⟩)).1 = .done)
    ∧ (∀ (m fuel : Nat) (sched : List SEvent),
        chunksOf (pullTrace fuel (StreamReader.new ⟨[], .ready m :: sched⟩)) = []) := by
  have hstep : ∀ (m : Nat) (sched : List SEvent),
      pollNext (StreamReader.new ⟨[], .ready m :: sched⟩)
        = (.done, ⟨none, ⟨[], DEFAULT_CAPACITY⟩, DEFAULT_CAPACITY⟩) := by
    intro m sched
    simp [pollNext, pollReadBuf, StreamReader.new, reserveIfEmpty, Buf.capacity,
      DEFAULT_CAPACITY]
  refine ⟨?_, ?_, ?_⟩
  · intro s src src' buf1 hr hp
    simp [pollNext, hr, hp]
  · intro m sched
    rw [hstep]
  · intro m fuel sched
    cases fuel with
    | zero => rfl
    | succ k =>
        rw [pullTrace]
        simp only [hstep]
        rw [pullTrace_terminal _ rfl k]
        rw [← List.replicate_succ]
        exact chunksOf_replicate_done (k + 1)

theorem zero_read_terminates_witness :
    pollNext (StreamReader.new ⟨[], [.ready 0]⟩)
      = (.done, ⟨none, ⟨[], 4096⟩, 4096⟩) :=
  zero_read_terminates.1 (StreamReader.new ⟨[], [.ready 0]⟩) ⟨[], [.ready 0]⟩
    ⟨[], []⟩ ⟨[], 4096⟩ rfl rfl

/-- C1 (counter-evidence): a finite one-byte source whose first read is
not yet ready (`Poll::Pending`) and which is ready on every later poll.
Because `poll_next` takes the reader out of `self` and the `Pending`
branch never puts it back, the pull after the `Pending` observes
`reader = None` and ends the stream: no chunk is ever produced, so the
concatenation of all chunks is empty while the source held one byte.
This contradicts the claim (and the spec's suspension step, which says
the pull resumes when the source becomes ready). -/
theorem pending_pull_loses_source_bytes :
    pullTrace 3 (StreamReader.new ⟨[171], [.pending, .ready 9, .ready 9]⟩)
      = [.pending, .done, .done]
    ∧ (chunksOf (pullTrace 3 (StreamReader.new ⟨[171], [.pending, .ready 9, .ready 9]⟩))).flatten
        = []
    ∧ Source.data ⟨[171], [.pending, .ready 9, .ready 9]⟩ = [171] := by
  exact ⟨rfl, rfl, rfl⟩

/-! ## The transport: extension bag, request building, bridge, send -/

/-- `http_client::RedirectPolicy`, the recognized redirect-policy
extension value. -/
inductive RedirectPolicy where
  | noFollow
  | followLimit (limit : Nat)
  | followAll
deriving DecidableEq, Repr

/-- `http_client::ReadTimeout`, the recognized read-timeout extension
value (the duration modelled as an opaque count). -/
structure ReadTimeout where
  duration : Nat
deriving DecidableEq, Repr

/-- The typed extension bag of a request: at most one value per
recognized type, plus opaque entries of unrecognized types that the
transport never reads. -/
structure Extensions where
  redirectPolicy : Option RedirectPolicy
  readTimeout : Option ReadTimeout
  unrecognized : List (Nat × Nat)
deriving DecidableEq, Repr

/-- `http::request::Parts`: method, uri, headers and the extension bag
(header values are opaque byte strings, duplicates kept in order). -/
structure RequestParts where
  method : String
  uri : String
  headers : List (String × List Nat)
  extensions : Extensions
deriving DecidableEq, Repr

/-- `http_client::Inner`, the body variants of the generic request. -/
inductive BodyInner where
  | empty
  | syncReader (cursor : List Nat)
  | asyncReader (stream : Source)
deriving DecidableEq, Repr

/-- `SyncReader` (reqwest_client.rs lines 192-202): an owned cursor over
in-memory bytes, taken on the first pull. -/
structure SyncReader where
  cursor : Option (List Nat)
deriving DecidableEq, Repr

/-- `SyncReader::new`. -/
def SyncReader.new (cursor : List Nat) : SyncReader :=
  { cursor := some cursor }

/-- `reqwest::redirect::Policy` as configured by the transport:
left at the engine default, `Policy::none()`, or `Policy::limited(n)`. -/
inductive ReqwestRedirectPolicy where
  | defaultPolicy
  | noRedirects
  | limited (max : Nat)
deriving DecidableEq, Repr

/-- The engine-native body handed to `RequestBuilder::body`
(reqwest_client.rs lines 261-269). -/
inductive EngineBody where
  | defaultEmpty
  | streamOfSync (reader : SyncReader)
  | streamOfReader (reader : StreamReader)
deriving DecidableEq, Repr

/-- The engine-native request as assembled by `ReqwestClient::send`
before dispatch (reqwest_client.rs lines 241-269). -/
structure EngineRequest where
  method : String
  uri : String
  headers : List (String × List Nat)
  redirect : ReqwestRedirectPolicy
  timeout : Option Nat
  body : EngineBody
deriving DecidableEq, Repr

/-- The redirect-policy match of `ReqwestClient::send`
(reqwest_client.rs lines 248-254). -/
def resolveRedirect (policy : RedirectPolicy) : ReqwestRedirectPolicy :=
  match policy with
  | .noFollow => .noRedirects
  | .followLimit limit => .limited limit
  | .followAll => .limited 100

/-- Request building inside `ReqwestClient::send` (reqwest_client.rs
lines 241-269): method/uri/headers are copied over, the recognized
extensions are resolved into engine options (absent ones leave the
engine defaults), unrecognized extension entries are never consulted,
and the body variant is converted into an engine-native body. -/
def buildEngineRequest (parts : RequestParts) (body : BodyInner) : EngineRequest :=
  let request : EngineRequest :=
    { method := parts.method, uri := parts.uri, headers := parts.headers,
      redirect := .defaultPolicy, timeout := none, body := .defaultEmpty }
  let request :=
    match parts.extensions.redirectPolicy with
    | some redirectPolicy => { request with redirect := resolveRedirect redirectPolicy }
    | none => request
  let request :=
    match parts.extensions.readTimeout with
    | some (ReadTimeout.mk timeout) => { request with timeout := some timeout }
    | none => request
  { request with
    body :=
      match body with
      | .empty => .defaultEmpty
      | .syncReader cursor => .streamOfSync (SyncReader.new cursor)
      | .asyncReader stream => .streamOfReader (StreamReader.new stream) }

/-- A `reqwest::Response`: status, headers in order, and the lazy byte
stream of the body, whose items can be engine-level read errors. -/
structure ReqwestResponse where
  status : Nat
  headers : List (String × List Nat)
  bytesStream : List (Except Nat (List Nat))

/-- `Result<reqwest::Response, reqwest::Error>` as produced by executing
a built request against the engine. -/
abbrev EngineResult := Except Nat ReqwestResponse

/-- The body of the background reactor thread (reqwest_client.rs lines
81-87): each `(request, response_channel)` pair received from the
channel is spawned as its own task which executes the request and sends
the result into exactly its paired one-shot sender.  One-shot senders
are identified by channel ids; the engine is the function executing a
built request. -/
def bridgeThreadLoop (engine : EngineRequest → EngineResult) :
    List (EngineRequest × Nat) → List (Nat × EngineResult)
  | [] => []
  | (request, responseChannel) :: rest =>
      (responseChannel, engine request) :: bridgeThreadLoop engine rest

/-- The spawned background thread: it owns the receiving end of the
channel and runs the receive loop on its own reactor. -/
structure SpawnedThread where
  receiverChan : Nat
  loopBody : List (EngineRequest × Nat) → List (Nat × EngineResult)

/-- The transport (reqwest_client.rs lines 25-35): the shared engine
client handle (modelled by the function executing a built request), the
optional proxy, the retained channel sender (`tokio_tx`, `None` when a
compatible reactor was detected), and the background thread handle
(`_thread`). -/
structure ReqwestClient where
  client : EngineRequest → EngineResult
  proxy : Option String
  tokio_tx : Option Nat
  thread : Option SpawnedThread

/-- `impl From<reqwest::Client> for ReqwestClient` (reqwest_client.rs
lines 59-94): decided once from whether a tokio reactor handle exists on
the current thread.  With a reactor: no channel, no thread.  Without:
one unbounded channel (id 0) whose sender is retained and whose receiver
is moved into the one spawned thread running the receive loop. -/
def reqwestClientFrom (client : EngineRequest → EngineResult) (hasTokio : Bool) :
    ReqwestClient :=
  if hasTokio then
    { client := client, proxy := none, tokio_tx := none, thread := none }
  else
    { client := client, proxy := none, tokio_tx := some 0,
      thread := some { receiverChan := 0, loopBody := bridgeThreadLoop client } }

/-- The error outcomes of `ReqwestClient::send` (reqwest_client.rs lines
272-281): the channel send failed (`tokio_tx.unbounded_send(..)?`, the
receiver/background thread is gone), the one-shot reply was cancelled
without a value (`rx.await?`), or the engine reported a network-level
error (`.map_err(|e| anyhow!(e))?`). -/
inductive SendError where
  | channelSendFailed
  | replyCanceled
  | engine (e : Nat)
deriving DecidableEq, Repr

/-- Whether a send error is a network-level engine error, as opposed to
a transport-level bridge failure. -/
def SendError.isEngineError : SendError → Bool
  | .engine _ => true
  | _ => false

/-- One item of the response body stream after error translation:
a byte chunk, or an io error wrapping the engine error
(`io::Error::new(ErrorKind::Other, e)`). -/
inductive BodyItem where
  | chunk (bytes : List Nat)
  | ioWrapped (sourceErr : Nat)
deriving DecidableEq, Repr

/-- `bytes_stream().map_err(..).into_async_read()` wrapped by
`AsyncBody::from_reader` (reqwest_client.rs lines 288-292): the engine's
response byte stream, item by item, with engine-level read errors mapped
into io errors.  The stream is wrapped, never drained. -/
def intoAsyncRead (stream : List (Except Nat (List Nat))) : List BodyItem :=
  stream.map fun item =>
    match item with
    | .ok bytes => .chunk bytes
    | .error e => .ioWrapped e

/-- `http_client::Response<AsyncBody>`: the response envelope returned
to the caller. -/
structure HttpResponse where
  status : Nat
  headers : List (String × List Nat)
  body : List BodyItem
deriving DecidableEq, Repr

/-- Response translation in `ReqwestClient::send` (reqwest_client.rs
lines 283-293): the builder takes the engine status (`status.as_u16()`),
appends every engine header pair in order, and wraps the engine byte
stream as the lazy body. -/
def intoResponseEnvelope (response : ReqwestResponse) : HttpResponse :=
  { status := response.status,
    headers := response.headers.foldl (fun builder nv => builder ++ [nv]) [],
    body := intoAsyncRead response.bytesStream }

/-- `ReqwestClient::send` after request building (reqwest_client.rs
lines 271-294).  With a retained sender (`tokio_tx = Some`), the built
request is shipped over the channel (failing with a transport error if
the receiver is gone), and the paired one-shot reply is awaited (failing
with a transport error if it is cancelled); otherwise the request is
executed inline.  Engine errors are wrapped; a successful engine
response is translated into the response envelope. -/
def ReqwestClient.send (c : ReqwestClient) (receiverAlive replyDelivered : Bool)
    (parts : RequestParts) (body : BodyInner) : Except SendError HttpResponse :=
  let request := buildEngineRequest parts body
  let response : Except SendError ReqwestResponse :=
    match c.tokio_tx with
    | some _ =>
        if receiverAlive then
          if replyDelivered then
            match c.client request with
            | .ok r => .ok r
            | .error e => .error (.engine e)
          else .error .replyCanceled
        else .error .channelSendFailed
    | none =>
        match c.client request with
        | .ok r => .ok r
        | .error e => .error (.engine e)
  response.map intoResponseEnvelope

/-! ## Helper lemmas about the bridge loop -/

theorem bridgeThreadLoop_ids (engine : EngineRequest → EngineResult)
    (msgs : List (EngineRequest × Nat)) :
    (bridgeThreadLoop engine msgs).map Prod.fst = msgs.map Prod.snd := by
  induction msgs with
  | nil => rfl
  | cons m rest ih =>
      obtain ⟨mreq, mtx⟩ := m
      simp [bridgeThreadLoop, ih]

theorem bridgeThreadLoop_filter_nil (engine : EngineRequest → EngineResult)
    (msgs : List (EngineRequest × Nat)) (tx : Nat)
    (h : tx ∉ msgs.map Prod.snd) :
    (bridgeThreadLoop engine msgs).filter (fun d => d.1 == tx) = [] := by
  induction msgs with
  | nil => rfl
  | cons m rest ih =>
      obtain ⟨mreq, mtx⟩ := m
      simp only [List.map_cons, List.mem_cons, not_or] at h
      obtain ⟨hne, hrest⟩ := h
      rw [bridgeThreadLoop, List.filter_cons]
      have hbeq : ((mtx, engine mreq).1 == tx) = false := by
        simp only [beq_eq_false_iff_ne, ne_eq]
        intro hc
        exact hne hc.symm
      simp only [hbeq, Bool.false_eq_true, if_false]
      exact ih hrest

theorem foldl_append_singleton {α : Type} (l : List α) (acc : List α) :
    l.foldl (fun builder x => builder ++ [x]) acc = acc ++ l := by
  induction l generalizing acc with
  | nil => simp
  | cons x rest ih => simp [List.foldl_cons, ih]

/-! ## Claims about the transport -/

/-- C4: transport construction is dual-mode, decided once from whether a
compatible reactor handle exists: with one, no channel sender and no
thread; without one, the sender of the single unbounded channel is
retained and its receiver is owned by the one spawned background thread,
which runs the receive loop over the engine. -/
theorem construction_dual_mode (client : EngineRequest → EngineResult) :
    (reqwestClientFrom client true).tokio_tx = none
    ∧ (reqwestClientFrom client true).thread = none
    ∧ (reqwestClientFrom client false).tokio_tx = some 0
    ∧ (reqwestClientFrom client false).thread
        = some { receiverChan := 0, loopBody := bridgeThreadLoop client } := by
  exact ⟨rfl, rfl, rfl, rfl⟩

/-- C5: one-shot pairing integrity of the background thread's receive
loop: when the reply channels of the received pairs are distinct (each
`oneshot::channel()` is fresh), each channel is fulfilled exactly once,
and with the engine result of its own paired request — never another
request's result. -/
theorem bridge_oneshot_pairing (engine : EngineRequest → EngineResult)
    (msgs : List (EngineRequest × Nat)) :
    ∀ (request : EngineRequest) (tx : Nat),
      (msgs.map Prod.snd).Nodup → (request, tx) ∈ msgs →
      (bridgeThreadLoop engine msgs).filter (fun d => d.1 == tx)
        = [(tx, engine request)] := by
  induction msgs with
  | nil =>
      intro request tx _ hmem
      cases hmem
  | cons m rest ih =>
      intro request tx hnodup hmem
      obtain ⟨mreq, mtx⟩ := m
      simp only [List.map_cons, List.nodup_cons] at hnodup
      obtain ⟨hnotin, hrest⟩ := hnodup
      rcases List.mem_cons.mp hmem with heq | hmem'
      · injection heq with h1 h2
        subst h1
        subst h2
        rw [bridgeThreadLoop, List.filter_cons]
        have hbeq : ((tx, engine request).1 == tx) = true := by simp
        simp only [hbeq, if_true]
        rw [bridgeThreadLoop_filter_nil engine rest tx hnotin]
      · have htx : tx ∈ rest.map Prod.snd :=
          List.mem_map.mpr ⟨(request, tx), hmem', rfl⟩
        have hne : ((mtx, engine mreq).1 == tx) = false := by
          simp only [beq_eq_false_iff_ne, ne_eq]
          intro hc
          exact hnotin (by rw [hc]; exact htx)
        rw [bridgeThreadLoop, List.filter_cons]
        simp only [hne, Bool.false_eq_true, if_false]
        exact ih request tx hrest hmem'

/-- A sample built request used to instantiate the pairing theorem. -/
def sampleRequestA : EngineRequest :=
  { method := "GET", uri := "https://a.example", headers := [],
    redirect := .defaultPolicy, timeout := none, body := .defaultEmpty }

/-- A second sample built request, distinct from the first. -/
def sampleRequestB : EngineRequest :=
  { sampleRequestA with uri := "https://b.example" }

/-- A sample engine echoing a request-dependent response. -/
def sampleEngine : EngineRequest → EngineResult :=
  fun request => .ok { status := 200, headers := [], bytesStream := [.ok [request.uri.length]] }

theorem bridge_oneshot_pairing_witness :
    (bridgeThreadLoop sampleEngine [(sampleRequestA, 1), (sampleRequestB, 2)]).filter
        (fun d => d.1 == 2) = [(2, sampleEngine sampleRequestB)] :=
  bridge_oneshot_pairing sampleEngine [(sampleRequestA, 1), (sampleRequestB, 2)]
    sampleRequestB 2 (by decide) (List.mem_cons_of_mem _ (List.mem_cons_self _ _))

/-- C6: on the bridged path, a failed channel send surfaces as the
transport-level channel error and a cancelled one-shot reply surfaces as
the transport-level cancellation error; both are distinguishable from
network-level engine errors and are returned to the caller, never
swallowed or retried. -/
theorem bridge_failure_surfaced (client : EngineRequest → EngineResult)
    (parts : RequestParts) (body : BodyInner) (ch : Nat) (replyDelivered : Bool) :
    ReqwestClient.send ⟨client, none, some ch, none⟩ false replyDelivered parts body
      = .error .channelSendFailed
    ∧ ReqwestClient.send ⟨client, none, some ch, none⟩ true false parts body
      = .error .replyCanceled
    ∧ SendError.isEngineError .channelSendFailed = false
    ∧ SendError.isEngineError .replyCanceled = false
    ∧ (∀ e : Nat, SendError.isEngineError (.engine e) = true) := by
  exact ⟨rfl, rfl, rfl, rfl, fun e => rfl⟩

/-- C7: `send` resolves the recognized extensions into engine options:
`NoFollow` becomes the engine's no-redirect policy, `FollowLimit n` a
redirect limit of exactly `n`, `ReadTimeout d` a timeout of exactly `d`;
an absent extension leaves the engine default, and the unrecognized
entries of the bag never influence the built request. -/
theorem extension_resolution (method uri : String)
    (headers : List (String × List Nat)) (unrec : List (Nat × Nat))
    (rp : Option RedirectPolicy) (rt : Option ReadTimeout)
    (body : BodyInner) (n d : Nat) :
    (buildEngineRequest ⟨method, uri, headers, ⟨some .noFollow, rt, unrec⟩⟩ body).redirect
      = .noRedirects
    ∧ (buildEngineRequest ⟨method, uri, headers, ⟨some (.followLimit n), rt, unrec⟩⟩ body).redirect
      = .limited n
    ∧ (buildEngineRequest ⟨method, uri, headers, ⟨rp, some ⟨d⟩, unrec⟩⟩ body).timeout = some d
    ∧ (buildEngineRequest ⟨method, uri, headers, ⟨none, rt, unrec⟩⟩ body).redirect
      = .defaultPolicy
    ∧ (buildEngineRequest ⟨method, uri, headers, ⟨rp, none, unrec⟩⟩ body).timeout = none
    ∧ buildEngineRequest ⟨method, uri, headers, ⟨rp, rt, unrec⟩⟩ body
      = buildEngineRequest ⟨method, uri, headers, ⟨rp, rt, []⟩⟩ body := by
  refine ⟨?_, ?_, ?_, ?_, ?_, ?_⟩ <;>
    rcases rp with _ | p <;> rcases rt with _ | ⟨d'⟩ <;> rfl

/-- C8: the response envelope keeps the engine status, the engine header
pairs exactly and in order, and its body is the item-by-item wrapper of
the engine's byte stream with engine-level read errors mapped into io
errors — built by wrapping, not by draining the stream. -/
theorem response_translation (response : ReqwestResponse) :
    (intoResponseEnvelope response).status = response.status
    ∧ (intoResponseEnvelope response).headers = response.headers
    ∧ (intoResponseEnvelope response).body.length = response.bytesStream.length
    ∧ (∀ i : Nat,
        (intoResponseEnvelope response).body[i]?
          = (response.bytesStream[i]?).map fun item =>
              match item with
              | .ok bytes => BodyItem.chunk bytes
              | .error e => BodyItem.ioWrapped e) := by
  refine ⟨rfl, ?_, ?_, ?_⟩
  · unfold intoResponseEnvelope
    simp [foldl_append_singleton]
  · simp [intoResponseEnvelope, intoAsyncRead]
  · intro i
    simp [intoResponseEnvelope, intoAsyncRead]

/-- The engine's redirect-following semantics for the policies the
transport configures: `limited n` follows chains of at most `n`
redirects and errors beyond that, `noRedirects` follows none, and the
engine default is a limit of 10. -/
def redirectChainFollowed : ReqwestRedirectPolicy → Nat → Bool
  | .defaultPolicy, hops => decide (hops ≤ 10)
  | .noRedirects, hops => decide (hops = 0)
  | .limited max, hops => decide (hops ≤ max)

/-- C10: a `FollowAll` redirect extension is translated into the finite
engine limit of exactly 100, so a redirect chain of more than 100 hops
is not followed to completion (the engine errors) instead of being
followed without bound. -/
theorem follow_all_limited_100 (method uri : String)
    (headers : List (String × List Nat)) (unrec : List (Nat × Nat))
    (rt : Option ReadTimeout) (body : BodyInner) :
    (buildEngineRequest ⟨method, uri, headers, ⟨some .followAll, rt, unrec⟩⟩ body).redirect
      = .limited 100
    ∧ (∀ hops : Nat,
        redirectChainFollowed
          ((buildEngineRequest ⟨method, uri, headers, ⟨some .followAll, rt, unrec⟩⟩ body).redirect)
          hops = decide (hops ≤ 100))
    ∧ redirectChainFollowed (.limited 100) 101 = false := by
  have hred : (buildEngineRequest
      ⟨method, uri, headers, ⟨some .followAll, rt, unrec⟩⟩ body).redirect = .limited 100 := by
    rcases rt with _ | ⟨d⟩ <;> rfl
  refine ⟨hred, ?_, by decide⟩
  intro hops
  rw [hred]
  rfl

/-! ## The adapter is lossless when the source never suspends

Complementing the `Pending` counterexample above: over a source that is
ready on every poll, repeated pulls deliver every byte exactly once, in
order.  The data loss exhibited for C1 is caused precisely by the
`Pending` branch dropping the taken reader. -/

theorem reserve_spare_pos (c spare : Nat) (hc : 0 < c) :
    ∃ spare', reserveIfEmpty c ⟨[], spare⟩ = ⟨[], spare'⟩ ∧ 0 < spare' := by
  by_cases hs : spare = 0
  · exact ⟨c, by simp [reserveIfEmpty, Buf.capacity, hs], hc⟩
  · exact ⟨spare, by simp [reserveIfEmpty, Buf.capacity, hs], Nat.pos_of_ne_zero hs⟩

theorem pollNext_ready_eof (c spare spare' k : Nat) (rest : List SEvent)
    (hres : reserveIfEmpty c ⟨[], spare⟩ = ⟨[], spare'⟩) (hs : 0 < spare') :
    pollNext ⟨some ⟨[], .ready k :: rest⟩, ⟨[], spare⟩, c⟩
      = (.done, ⟨none, ⟨[], spare'⟩, c⟩) := by
  simp [pollNext, hres, pollReadBuf, hs.ne']

theorem pollNext_ready_cons (c spare spare' k b : Nat) (d' : List Nat) (rest : List SEvent)
    (hres : reserveIfEmpty c ⟨[], spare⟩ = ⟨[], spare'⟩) (hs : 0 < spare') :
    pollNext ⟨some ⟨b :: d', .ready k :: rest⟩, ⟨[], spare⟩, c⟩
      = (.chunk ((b :: d').take (min (k + 1) spare')),
         ⟨some ⟨(b :: d').drop ((b :: d').take (min (k + 1) spare')).length, rest⟩,
          ⟨[], spare' - ((b :: d').take (min (k + 1) spare')).length⟩, c⟩) := by
  have hminpos : 0 < min (k + 1) spare' := Nat.lt_min.mpr ⟨Nat.succ_pos k, hs⟩
  obtain ⟨m, hm⟩ : ∃ m, min (k + 1) spare' = m + 1 :=
    ⟨min (k + 1) spare' - 1, (Nat.succ_pred_eq_of_pos hminpos).symm⟩
  simp [pollNext, hres, pollReadBuf, hs.ne', hm, List.take_succ_cons]

theorem chunksOf_cons_chunk (bs : List Nat) (tr : List PollNextResult) :
    chunksOf (.chunk bs :: tr) = bs :: chunksOf tr := rfl

theorem chunks_trace_nil_data (c : Nat) (hc : 0 < c) (k : Nat) (rest : List SEvent)
    (spare fuel : Nat) :
    (chunksOf (pullTrace (fuel + 1) ⟨some ⟨[], .ready k :: rest⟩, ⟨[], spare⟩, c⟩)).flatten
      = [] := by
  obtain ⟨spare', hres, hs'⟩ := reserve_spare_pos c spare hc
  rw [pullTrace]
  simp only [pollNext_ready_eof c spare spare' k rest hres hs']
  rw [pullTrace_terminal _ rfl fuel, ← List.replicate_succ]
  rw [chunksOf_replicate_done]
  rfl

theorem chunks_concat_of_always_ready (c : Nat) (hc : 0 < c) :
    ∀ (N : Nat) (d : List Nat) (sched : List SEvent) (spare : Nat),
      d.length ≤ N →
      (∀ e ∈ sched, ∃ k, e = .ready k) →
      d.length < sched.length →
      (chunksOf (pullTrace sched.length ⟨some ⟨d, sched⟩, ⟨[], spare⟩, c⟩)).flatten = d := by
  intro N
  induction N with
  | zero =>
      intro d sched spare hdN hready hlen
      have hd : d = [] := List.length_eq_zero.mp (Nat.le_zero.mp hdN)
      subst hd
      cases sched with
      | nil => exact absurd hlen (Nat.not_lt_zero _)
      | cons e rest =>
          obtain ⟨k, hk⟩ := hready e (List.mem_cons_self e rest)
          subst hk
          exact chunks_trace_nil_data c hc k rest spare rest.length
  | succ n ih =>
      intro d sched spare hdN hready hlen
      cases sched with
      | nil => exact absurd hlen (Nat.not_lt_zero _)
      | cons e rest =>
          obtain ⟨k, hk⟩ := hready e (List.mem_cons_self e rest)
          subst hk
          cases d with
          | nil => exact chunks_trace_nil_data c hc k rest spare rest.length
          | cons b d' =>
              obtain ⟨spare', hres, hs'⟩ := reserve_spare_pos c spare hc
              have hstep := pollNext_ready_cons c spare spare' k b d' rest hres hs'
              have hwpos : 0 < ((b :: d').take (min (k + 1) spare')).length := by
                rw [List.length_take, List.length_cons]
                have : 0 < min (k + 1) spare' := Nat.lt_min.mpr ⟨Nat.succ_pos k, hs'⟩
                omega
              rw [show ((SEvent.ready k :: rest).length) = rest.length + 1 from rfl, pullTrace]
              simp only [hstep]
              rw [chunksOf_cons_chunk, List.flatten_cons]
              have hih := ih ((b :: d').drop ((b :: d').take (min (k + 1) spare')).length)
                  rest (spare' - ((b :: d').take (min (k + 1) spare')).length)
                  (by rw [List.length_drop]; simp only [List.length_cons] at hdN ⊢; omega)
                  (fun e he => hready e (List.mem_cons_of_mem _ he))
                  (by
                    rw [List.length_drop]
                    simp only [List.length_cons] at hlen ⊢
                    omega)
              rw [hih]
              nth_rewrite 1 [← take_filled_length (b :: d') (min (k + 1) spare')]
              exact List.take_append_drop _ _

/-- Over a finite byte source that is ready on every poll (no `Pending`,
no error), pulling the adapter as many times as the schedule allows
delivers chunks whose concatenation is exactly the source's bytes. -/
theorem streamreader_lossless_without_pending (d : List Nat) (sched : List SEvent)
    (hready : ∀ e ∈ sched, ∃ k, e = .ready k) (hlen : d.length < sched.length) :
    (chunksOf (pullTrace sched.length (StreamReader.new ⟨d, sched⟩))).flatten = d :=
  chunks_concat_of_always_ready DEFAULT_CAPACITY (by decide) d.length d sched 0
    (Nat.le_refl _) hready hlen
